import Mathlib

/-!
Verification of the `enum-collections` Rust crate: a pair of enum-keyed
containers (`EnumMap`, sparse, with `Option<V>` slots; `EnumTable`, dense,
with every slot holding a `V`) built on the `Enumerated` trait, which maps
each enum variant to a dense position in `[0, K::len())`.

The embedding models an enum key type with `n` variants as `Fin n`; the
derive mechanism (`#[derive(Enumerated)]`, whose code lives in a sibling
crate not present under `src/`) assigns each variant its zero-based
declaration index, so `position` is `Fin.val` and `len` is `n`.

Container states are lists of slot values together with the length
invariant (`Box<[T]>` / the manually allocated buffer both have a fixed
runtime length equal to `K::len()`); keys address slots through
`position`.

Allocation layouts of `EnumTable::new` / `Drop::drop` are modelled by a
`Layout` structure mirroring `std::alloc::Layout` and a `Layout.array`
function mirroring `Layout::array::<T>(n)`.
-/

namespace EnumCollections

namespace Enumerated

/-- Modelled from the spec: the derive mechanism (`#[derive(Enumerated)]`,
source not under `src/`) generates `position()` returning the zero-based
declaration index of the variant (spec §4.1). With an `n`-variant enum
modelled as `Fin n`, the declaration index of a variant is its `Fin.val`. -/
def position {n : Nat} (k : Fin n) : Nat := k.val

/-- Modelled from the spec: the derive mechanism generates `len()`
returning the total count of declared variants (spec §4.1). -/
def len (n : Nat) : Nat := n

/-- Modelled from the spec: the derived associated constant `VARIANTS`
(used by `EnumMap::new`) lists every variant once, in declaration order. -/
def VARIANTS (n : Nat) : List (Fin n) := List.ofFn id

theorem position_lt {n : Nat} (k : Fin n) : position k < n := k.isLt

theorem length_VARIANTS (n : Nat) : (VARIANTS n).length = n := by
  simp [VARIANTS]

end Enumerated

/-! ## List helper lemmas -/

theorem list_set_get_self {α : Type} :
    ∀ (l : List α) (i : Nat) (h : i < l.length), l.set i (l.get ⟨i, h⟩) = l
  | _ :: _, 0, _ => rfl
  | a :: l, i + 1, h =>
    congrArg (a :: ·) (list_set_get_self l i (Nat.lt_of_succ_lt_succ h))

/-! ## Sparse container: `EnumMap` (src/enum-collections/src/enummap.rs) -/

/-- Embeds `EnumMap<K, V>` (enummap.rs lines 45-51): the field `values`
is a `Box<[Option<V>]>` whose length is fixed at `K::len()` slots; the
`PhantomData` field carries no state and is omitted. -/
structure EnumMap (n : Nat) (V : Type) where
  values : List (Option V)
  length_values : values.length = n

/-- Embeds `EnumMap::new` (enummap.rs lines 59-64):
`K::VARIANTS.iter().map(|_| None).collect()` produces one `None` slot per
variant. -/
def EnumMap.new (n : Nat) (V : Type) : EnumMap n V where
  values := (Enumerated.VARIANTS n).map (fun _ => none)
  length_values := by simp [Enumerated.length_VARIANTS]

/-- Embeds `EnumMap::get` (enummap.rs lines 72-74):
`self.values[key.position()].as_ref()`; the model returns the slot's
optional value itself rather than a reference into it. -/
def EnumMap.get {n : Nat} {V : Type} (m : EnumMap n V) (key : Fin n) :
    Option V :=
  m.values.get
    ⟨Enumerated.position key, by rw [m.length_values]; exact key.isLt⟩

/-- Embeds `EnumMap::insert` (enummap.rs lines 82-84):
`self.values[key.position()] = Some(value)`. -/
def EnumMap.insert {n : Nat} {V : Type} (m : EnumMap n V) (key : Fin n)
    (value : V) : EnumMap n V where
  values := m.values.set (Enumerated.position key) (some value)
  length_values := by rw [List.length_set]; exact m.length_values

/-- Embeds `EnumMap::remove` (enummap.rs lines 88-90):
`self.values[key.position()] = None`. -/
def EnumMap.remove {n : Nat} {V : Type} (m : EnumMap n V) (key : Fin n) :
    EnumMap n V where
  values := m.values.set (Enumerated.position key) none
  length_values := by rw [List.length_set]; exact m.length_values

/-- Embeds `Index::index` (enummap.rs lines 110-112):
`&self.values[key.position()]`, the slot's optional value. -/
def EnumMap.index {n : Nat} {V : Type} (m : EnumMap n V) (key : Fin n) :
    Option V :=
  m.values.get
    ⟨Enumerated.position key, by rw [m.length_values]; exact key.isLt⟩

/-- Embeds a write through `IndexMut::index_mut` (enummap.rs lines
120-122): `map[key] = ov` assigns `ov` to the slot `&mut
self.values[key.position()]`, replacing it outright. -/
def EnumMap.index_mut {n : Nat} {V : Type} (m : EnumMap n V) (key : Fin n)
    (ov : Option V) : EnumMap n V where
  values := m.values.set (Enumerated.position key) ov
  length_values := by rw [List.length_set]; exact m.length_values

theorem EnumMap.eq_of_values_eq {n : Nat} {V : Type} {m m' : EnumMap n V}
    (h : m.values = m'.values) : m = m' := by
  cases m; cases m'; cases h; rfl

/-! ## Dense container: `EnumTable` (src/enum-collections/src/enumtable/mod.rs) -/

/-- Embeds the live state of `EnumTable<K, V>` (enumtable/mod.rs lines
40-47): the field `values` is a `&mut [V]` over the manually allocated
buffer, holding exactly `K::len()` initialized values of `V`; the
`PhantomData` field carries no state and is omitted. -/
structure EnumTable (n : Nat) (V : Type) where
  values : List V
  length_values : values.length = n

/-- Embeds the slot contents produced by `EnumTable::new` (enumtable/mod.rs
lines 56-68) on the successful path: the loop writes `V::default()` into
each of the `K::len()` slots of the freshly allocated buffer, so the
resulting contents are `K::len()` copies of the default value. The
allocation itself is modelled separately by `EnumTable.newOutcome`. -/
def EnumTable.new (n : Nat) (V : Type) [Inhabited V] : EnumTable n V where
  values := List.replicate n default
  length_values := by simp

/-- Embeds `EnumTable::get` (enumtable/mod.rs lines 76-78):
`&self.values[key.position()]`; total, it always yields a value. -/
def EnumTable.get {n : Nat} {V : Type} (t : EnumTable n V) (key : Fin n) :
    V :=
  t.values.get
    ⟨Enumerated.position key, by rw [t.length_values]; exact key.isLt⟩

/-- Embeds `EnumTable::insert` (enumtable/mod.rs lines 86-88):
`self.values[key.position()] = value`. -/
def EnumTable.insert {n : Nat} {V : Type} (t : EnumTable n V) (key : Fin n)
    (value : V) : EnumTable n V where
  values := t.values.set (Enumerated.position key) value
  length_values := by rw [List.length_set]; exact t.length_values

/-- Embeds `EnumTable::reset` (enumtable/mod.rs lines 94-96):
`self.values[key.position()] = V::default()`. -/
def EnumTable.reset {n : Nat} {V : Type} [Inhabited V] (t : EnumTable n V)
    (key : Fin n) : EnumTable n V where
  values := t.values.set (Enumerated.position key) default
  length_values := by rw [List.length_set]; exact t.length_values

/-! ## Allocation layouts (std::alloc::Layout, as used by new/drop) -/

/-- Largest value of Rust's `isize`, the bound `Layout` enforces on
rounded-up sizes (64-bit target). -/
def isizeMax : Nat := 2 ^ 63 - 1

/-- Embeds `std::alloc::Layout`: a size in bytes and a power-of-two
alignment. -/
structure Layout where
  size : Nat
  align : Nat
deriving DecidableEq

/-- Embeds `Layout::array::<T>(n)` for an element type of the given size
and alignment: the array layout has size `n * size_of::<T>()` (an element
size is already a multiple of its alignment, so no extra padding) and the
element's alignment, failing (`Err`) when the rounded-up size would
overflow `isize::MAX`. -/
def Layout.array (elemSize elemAlign n : Nat) : Option Layout :=
  if n * elemSize + (elemAlign - 1) ≤ isizeMax then
    some ⟨n * elemSize, elemAlign⟩
  else
    none

/-- Models a Rust value type `V` by its layout data: `size_of::<V>()`,
`align_of::<V>()`, and the layout of `Option<V>` (`size_of::<Option<V>>()`,
`align_of::<Option<V>>()`), which the compiler fixes per concrete `V`. -/
structure RustTy where
  size : Nat
  align : Nat
  optionSize : Nat
  optionAlign : Nat

/-- Models Rust's `u8`: size 1, align 1; `Option<u8>` stores a separate
discriminant byte (no niche in `u8`), so `size_of::<Option<u8>>() = 2`,
align 1. -/
def u8Ty : RustTy := ⟨1, 1, 2, 1⟩

/-- Embeds the layout acquired by `EnumTable::new` (enumtable/mod.rs line
59): `Layout::array::<V>(K::len())`. -/
def EnumTable.allocLayout (V : RustTy) (n : Nat) : Option Layout :=
  Layout.array V.size V.align n

/-- Embeds the layout released by `EnumTable::drop` (enumtable/mod.rs line
121): `Layout::array::<Option<V>>(K::len())` — note the element type is
`Option<V>`, not the `V` used at allocation. -/
def EnumTable.deallocLayout (V : RustTy) (n : Nat) : Option Layout :=
  Layout.array V.optionSize V.optionAlign n

/-- Possible outcomes of running `EnumTable::new`. -/
inductive NewOutcome (V : Type) where
  | live (values : List V)
  | panicked
  | undefinedBehavior
deriving DecidableEq

/-- Embeds the control flow of `EnumTable::new` (enumtable/mod.rs lines
56-68) with the allocator's success made explicit.
`Layout::array::<V>(K::len()).unwrap()` panics (aborting construction)
when the layout computation fails. Otherwise `alloc` runs: on success the
loop initializes all `K::len()` slots with `V::default()` and the
container is live; on allocation failure `alloc` returns a null pointer,
and the code — with no null check — builds a slice from it via
`from_raw_parts_mut` and writes the defaults through it, which is
undefined behavior, not an abort. -/
def EnumTable.newOutcome (V : RustTy) (n : Nat) (W : Type) [Inhabited W]
    (allocSucceeds : Bool) : NewOutcome W :=
  match EnumTable.allocLayout V n with
  | none => NewOutcome.panicked
  | some _ =>
    if allocSucceeds then NewOutcome.live (List.replicate n (default : W))
    else NewOutcome.undefinedBehavior

/-! ## Claim theorems -/

/-- C2: for every key type satisfying the Key Enumeration Contract (as
produced by the derive mechanism, modelled by `Enumerated.position` on
`Fin n`), `position` is a bijection onto `[0, len())`: distinct keys get
distinct positions, and every integer below `Enumerated.len n` is the
position of exactly one key. -/
theorem Enumerated.position_bijection (n : Nat) :
    (∀ a b : Fin n, Enumerated.position a = Enumerated.position b → a = b) ∧
    (∀ i : Nat, i < Enumerated.len n →
      ∃! k : Fin n, Enumerated.position k = i) := by
  constructor
  · intro a b h
    exact Fin.ext h
  · intro i hi
    exact ⟨⟨i, hi⟩, rfl, fun k hk => Fin.ext hk⟩

theorem Enumerated.position_bijection_witness :
    (3 : Fin 5) = 3 ∧ ∃! k : Fin 5, Enumerated.position k = 2 :=
  ⟨(Enumerated.position_bijection 5).1 3 3 rfl,
    (Enumerated.position_bijection 5).2 2 (by decide)⟩

/-- C3: immediately after `EnumTable::new`, `get(k)` yields the value
type's default for every key `k`; `EnumTable.get` is total (it returns a
value of `V`, never an absence indicator). -/
theorem EnumTable.get_new (n : Nat) (V : Type) [Inhabited V] (k : Fin n) :
    (EnumTable.new n V).get k = default := by
  simp [EnumTable.new, EnumTable.get, List.get_eq_getElem]

/-- C4: after `EnumMap::insert(k, v)`, `get(k)` yields `v` as present, and
`get(k')` for every other key `k'` is unchanged. -/
theorem EnumMap.get_insert {n : Nat} {V : Type} (m : EnumMap n V)
    (k k' : Fin n) (v : V) (h : k' ≠ k) :
    (m.insert k v).get k = some v ∧ (m.insert k v).get k' = m.get k' := by
  constructor
  · simp [EnumMap.insert, EnumMap.get, List.get_eq_getElem]
  · simp only [EnumMap.insert, EnumMap.get, List.get_eq_getElem]
    exact List.getElem_set_ne
      (Fin.val_ne_of_ne (Ne.symm h)) _

theorem EnumMap.get_insert_witness :
    ((EnumMap.new 2 Nat).insert 0 42).get 0 = some 42 ∧
    ((EnumMap.new 2 Nat).insert 0 42).get 1 = (EnumMap.new 2 Nat).get 1 :=
  EnumMap.get_insert (EnumMap.new 2 Nat) 0 1 42 (by decide)

/-- C5: after `EnumTable::reset(k)`, `get(k)` yields the default again; in
particular the content of slot `k` after `insert(k, v)` followed by
`reset(k)` equals the content of slot `k` immediately after `new()`. -/
theorem EnumTable.get_reset {n : Nat} {V : Type} [Inhabited V]
    (t : EnumTable n V) (k : Fin n) (v : V) :
    (t.reset k).get k = default ∧
    ((t.insert k v).reset k).get k = (EnumTable.new n V).get k := by
  have hr : ∀ s : EnumTable n V, (s.reset k).get k = default := by
    intro s
    simp [EnumTable.reset, EnumTable.get, List.get_eq_getElem]
  exact ⟨hr t, by rw [hr (t.insert k v), EnumTable.get_new]⟩

/-- C6: immediately after `EnumMap::new`, `get(k)` is absent for every
key `k` (all `K::len()` slots are `None`). -/
theorem EnumMap.new_all_absent (n : Nat) (V : Type) (k : Fin n) :
    (EnumMap.new n V).get k = none := by
  simp [EnumMap.new, EnumMap.get, List.get_eq_getElem, Enumerated.VARIANTS]

/-- C7: after `EnumMap::remove(k)`, `get(k)` is absent; `remove` is
idempotent as a state transformer; and removing an already-absent key
leaves the state unchanged (a no-op, not an error). -/
theorem EnumMap.remove_props {n : Nat} {V : Type} (m : EnumMap n V)
    (k : Fin n) :
    (m.remove k).get k = none ∧
    (m.remove k).remove k = m.remove k ∧
    (m.get k = none → m.remove k = m) := by
  refine ⟨?_, ?_, ?_⟩
  · simp [EnumMap.remove, EnumMap.get, List.get_eq_getElem]
  · exact EnumMap.eq_of_values_eq
      (List.set_set none none m.values (Enumerated.position k))
  · intro h
    apply EnumMap.eq_of_values_eq
    have hb : Enumerated.position k < m.values.length := by
      rw [m.length_values]; exact k.isLt
    have hg : m.values.get ⟨Enumerated.position k, hb⟩ = none := h
    show m.values.set (Enumerated.position k) none = m.values
    rw [← hg]
    exact list_set_get_self m.values (Enumerated.position k) hb

theorem EnumMap.remove_props_witness :
    ((EnumMap.new 2 Nat).remove 0).get 0 = none ∧
    ((EnumMap.new 2 Nat).remove 0).remove 0 = (EnumMap.new 2 Nat).remove 0 ∧
    (EnumMap.new 2 Nat).remove 0 = EnumMap.new 2 Nat := by
  obtain ⟨h1, h2, h3⟩ := EnumMap.remove_props (EnumMap.new 2 Nat) 0
  exact ⟨h1, h2, h3 rfl⟩

/-- C8: the indexed sugar of `EnumMap`: a write through `index_mut`
replaces the slot outright with the written optional value (so the slot
then reads back as exactly that value, writing `None` equals `remove`,
and writing `Some v` equals `insert v`), and the indexed read yields the
same optional value as the slot `get` addresses. -/
theorem EnumMap.index_sugar {n : Nat} {V : Type} (m : EnumMap n V)
    (k : Fin n) (ov : Option V) (v : V) :
    (m.index_mut k ov).values
      = m.values.set (Enumerated.position k) ov ∧
    (m.index_mut k ov).get k = ov ∧
    m.index_mut k none = m.remove k ∧
    m.index_mut k (some v) = m.insert k v ∧
    m.index k = m.get k := by
  refine ⟨rfl, ?_, rfl, rfl, rfl⟩
  simp [EnumMap.index_mut, EnumMap.get, List.get_eq_getElem]

/-- C9: evaluation of `EnumTable::new`'s embedding at an allocation
failure (`alloc` returns null; here `K::len() = 2`, `V = u8`): the code
reaches undefined behavior by writing defaults through the null pointer,
rather than aborting construction — allocation failure is silently
ignored. -/
theorem EnumTable.alloc_failure_not_abort :
    EnumTable.newOutcome u8Ty 2 Nat false = NewOutcome.undefinedBehavior ∧
    EnumTable.newOutcome u8Ty 2 Nat false ≠ NewOutcome.panicked := by
  constructor <;> decide

/-- C10: the backing slot sequence of `EnumMap` has length exactly
`K::len()` at construction and always; `insert`, `remove` and indexed
writes preserve it; and slot index `i` corresponds to the unique key
whose `position()` equals `i`. -/
theorem EnumMap.length_invariant {n : Nat} {V : Type} (m : EnumMap n V)
    (k : Fin n) (v : V) (ov : Option V) :
    (EnumMap.new n V).values.length = n ∧
    m.values.length = n ∧
    (m.insert k v).values.length = m.values.length ∧
    (m.remove k).values.length = m.values.length ∧
    (m.index_mut k ov).values.length = m.values.length ∧
    (∀ i : Fin n, ∃! key : Fin n, Enumerated.position key = i.val) := by
  refine ⟨(EnumMap.new n V).length_values, m.length_values,
    List.length_set .., List.length_set .., List.length_set .., ?_⟩
  intro i
  exact ⟨i, rfl, fun key hk => Fin.ext hk⟩

theorem EnumMap.length_invariant_witness :
    (EnumMap.new 2 Nat).values.length = 2 ∧
    ∃! key : Fin 2, Enumerated.position key = (1 : Fin 2).val := by
  obtain ⟨h1, _, _, _, _, h6⟩ :=
    EnumMap.length_invariant (EnumMap.new 2 Nat) 0 0 none
  exact ⟨h1, h6 1⟩

/-- C1: evaluation of the two layouts at a concrete instantiation
(`K::len() = 2`, `V = u8`): `new` acquires with `Layout::array::<u8>(2)`,
size 2, while `drop` releases with `Layout::array::<Option<u8>>(2)`,
size 4 — the release layout differs from the acquisition layout, so the
buffer is not released with a description sized for exactly `N` values
of `V`. -/
theorem EnumTable.dealloc_layout_mismatch :
    EnumTable.allocLayout u8Ty 2 = some ⟨2, 1⟩ ∧
    EnumTable.deallocLayout u8Ty 2 = some ⟨4, 1⟩ ∧
    EnumTable.allocLayout u8Ty 2 ≠ EnumTable.deallocLayout u8Ty 2 := by
  refine ⟨?_, ?_, ?_⟩ <;> decide

end EnumCollections
